import Mathlib

/-!
Verification development for the ebup-viewer reader core.

The Rust sources are embedded shallowly:
* strings are `List Char` (`Str`); all text transforms work on char lists;
* `f32` values are modelled as exact rationals (`ℚ`); a possibly non-finite
  `f32` (NaN or an infinity) is modelled as `Option ℚ` with `none` for the
  non-finite values, where the code distinguishes them via `is_finite`;
* `std::time::Duration` and `Instant` are modelled as `Nat` nanoseconds
  (`Duration` is an unsigned quantity and `saturating_duration_since` is
  exactly truncated `Nat` subtraction);
* regular-expression rewrites (`Regex::replace_all`) are implemented as
  left-to-right scanners: at each position the anchored matcher is tried,
  a match (whose length is returned by the matcher) is replaced and the scan
  resumes after it, otherwise one character is copied.  Each of the eight
  patterns in `normalizer.rs` is deterministic (every repetition is over a
  character class excluded by the following literal), so the scanners below
  realise exactly the leftmost-match semantics of `replace_all`.
  The scanners recurse on an explicit fuel (`input.length + 1` suffices since
  every step consumes at least one character); the fuel keeps the definitions
  structurally recursive and hence evaluable by `decide`.
-/

namespace EbupViewer

/-- Text is modelled as a list of characters. -/
abbrev Str := List Char

/-- The opening curly brace character (written via its code point). -/
def lbraceChar : Char := Char.ofNat 123

/-- The closing curly brace character (written via its code point). -/
def rbraceChar : Char := Char.ofNat 125

/-- The backquote character (written via its code point). -/
def backquoteChar : Char := Char.ofNat 96

/-- Rust `char::is_whitespace` / the regex class `\s`: the Unicode
`White_Space` code points. -/
def rustIsWhitespace (c : Char) : Bool :=
  c = ' ' || c = '\t' || c = '\n' || c.val = 0xB || c.val = 0xC || c = '\r' ||
  c.val = 0x85 || c.val = 0xA0 || c.val = 0x1680 ||
  (0x2000 ≤ c.val && c.val ≤ 0x200A) ||
  c.val = 0x2028 || c.val = 0x2029 || c.val = 0x202F || c.val = 0x205F ||
  c.val = 0x3000

/-- The regex class `\d`.  The regex crate matches every Unicode `Nd` digit;
the inputs of this development are ASCII, for which the class is `0`-`9`. -/
def regexIsDigit (c : Char) : Bool := c.isDigit

/-- Rust `char::is_alphanumeric`.  The source accepts every Unicode
`Alphabetic` or numeric character; the inputs of this development are ASCII,
for which the predicate is `[0-9A-Za-z]`. -/
def rustIsAlphanumeric (c : Char) : Bool := c.isAlphanum

/-- The character class `[ \t\u{00A0}]` of `RE_HORIZONTAL_WS`. -/
def isHorizontalWs (c : Char) : Bool := c = ' ' || c = '\t' || c.val = 0xA0

/-- The character class `[,.;:!?]` of `RE_SPACE_BEFORE_PUNCT`. -/
def isSentencePunct (c : Char) : Bool :=
  c = ',' || c = '.' || c = ';' || c = ':' || c = '!' || c = '?'

/-!  ### The `replace_all` scanner

A matcher takes the current suffix and, when the pattern matches at its head,
returns the replacement text together with `k` such that the match spans the
head character plus the next `k` characters. -/

/-- Fuel-indexed scanner realising `Regex::replace_all`. -/
def replaceScanF (f : List Char → Option (List Char × Nat)) :
    Nat → List Char → List Char
  | 0, _ => []
  | _ + 1, [] => []
  | fuel + 1, c :: cs =>
    match f (c :: cs) with
    | some (repl, k) => repl ++ replaceScanF f fuel (cs.drop k)
    | none => c :: replaceScanF f fuel cs

/-- `Regex::replace_all` over the whole input. -/
def replaceScan (f : List Char → Option (List Char × Nat)) (s : List Char) :
    List Char :=
  replaceScanF f (s.length + 1) s

/-- Anchored matcher for `RE_MARKDOWN_LINK` = `\[([^\]]+)\]\([^)]*\)`,
replacement `$1` (keep the link text, drop the target). -/
def matchMarkdownLink (s : List Char) : Option (List Char × Nat) :=
  match s with
  | '[' :: rest =>
    let inner := rest.takeWhile (fun c => c ≠ ']')
    if inner.isEmpty then none
    else
      match rest.drop inner.length with
      | ']' :: '(' :: r2 =>
        let target := r2.takeWhile (fun c => c ≠ ')')
        match r2.drop target.length with
        | ')' :: _ => some (inner, inner.length + target.length + 3)
        | _ => none
      | _ => none
  | _ => none

/-- Anchored matcher for `RE_INLINE_CODE`, a backquote-delimited span with
nonempty body, replacement `$1` (keep the inner text). -/
def matchInlineCode (s : List Char) : Option (List Char × Nat) :=
  match s with
  | c :: rest =>
    if c = backquoteChar then
      let inner := rest.takeWhile (fun d => d ≠ backquoteChar)
      if inner.isEmpty then none
      else
        match rest.drop inner.length with
        | d :: _ => if d = backquoteChar then some (inner, inner.length + 1) else none
        | [] => none
    else none
  | [] => none

/-- The `(?:\s*,\s*\d+)*` tail of the citation patterns: the number of
characters consumed by the (greedy, deterministic) repetition. -/
def parseCiteGroupsF : Nat → List Char → Nat
  | 0, _ => 0
  | fuel + 1, l =>
    let ws := l.takeWhile rustIsWhitespace
    match l.drop ws.length with
    | ',' :: r2 =>
      let ws2 := r2.takeWhile rustIsWhitespace
      let ds := (r2.drop ws2.length).takeWhile regexIsDigit
      if ds.isEmpty then 0
      else ws.length + 1 + ws2.length + ds.length +
        parseCiteGroupsF fuel ((r2.drop ws2.length).drop ds.length)
    | _ => 0

/-- Characters consumed by `(?:\s*,\s*\d+)*` at the head of `l`. -/
def parseCiteGroups (l : List Char) : Nat := parseCiteGroupsF (l.length + 1) l

/-- Anchored matcher for `RE_NUMERIC_BRACKET_CITE` and
`RE_PARENTHETICAL_NUMERIC` (`open \s*\d+(?:\s*,\s*\d+)*\s* close`),
replacement a single space. -/
def matchCiteBody (openCh closeCh : Char) (s : List Char) :
    Option (List Char × Nat) :=
  match s with
  | c :: rest =>
    if c = openCh then
      let ws1 := rest.takeWhile rustIsWhitespace
      let r1 := rest.drop ws1.length
      let ds := r1.takeWhile regexIsDigit
      if ds.isEmpty then none
      else
        let r2 := r1.drop ds.length
        let g := parseCiteGroups r2
        let r3 := r2.drop g
        let ws2 := r3.takeWhile rustIsWhitespace
        match r3.drop ws2.length with
        | c2 :: _ =>
          if c2 = closeCh then
            some ([' '], ws1.length + ds.length + g + ws2.length + 1)
          else none
        | [] => none
    else none
  | [] => none

/-- Anchored matcher for `RE_SQUARE_BRACKET_BLOCK` / `RE_CURLY_BRACKET_BLOCK`
(`open [^close]* close`), replacement a single space. -/
def matchBracketBlock (openCh closeCh : Char) (s : List Char) :
    Option (List Char × Nat) :=
  match s with
  | c :: rest =>
    if c = openCh then
      let inner := rest.takeWhile (fun d => d ≠ closeCh)
      match rest.drop inner.length with
      | d :: _ => if d = closeCh then some ([' '], inner.length + 1) else none
      | [] => none
    else none
  | [] => none

/-- Anchored matcher for `RE_HORIZONTAL_WS` = `[ \t\u{00A0}]+`, replacement a
single space. -/
def matchHorizWsRun (s : List Char) : Option (List Char × Nat) :=
  match s with
  | c :: _ =>
    if isHorizontalWs c then
      some ([' '], (s.takeWhile isHorizontalWs).length - 1)
    else none
  | [] => none

/-- Anchored matcher for `RE_SPACE_BEFORE_PUNCT` = `\s+([,.;:!?])`,
replacement `$1`. -/
def matchSpaceBeforePunct (s : List Char) : Option (List Char × Nat) :=
  match s with
  | c :: _ =>
    if rustIsWhitespace c then
      let run := s.takeWhile rustIsWhitespace
      match s.drop run.length with
      | p :: _ => if isSentencePunct p then some ([p], run.length) else none
      | [] => none
    else none
  | [] => none

/-- Fuel-indexed core of Rust `str::replace` for a nonempty pattern. -/
def strReplaceF (pat repl : List Char) : Nat → List Char → List Char
  | 0, _ => []
  | _ + 1, [] => []
  | fuel + 1, c :: cs =>
    if (c :: cs).take pat.length = pat then
      repl ++ strReplaceF pat repl fuel ((c :: cs).drop pat.length)
    else
      c :: strReplaceF pat repl fuel cs

/-- Rust `str::replace`: replace every non-overlapping occurrence of `pat`,
left to right.  An empty pattern matches at every character boundary. -/
def strReplace (pat repl s : List Char) : List Char :=
  if pat.isEmpty then repl ++ s.flatMap (fun c => c :: repl)
  else strReplaceF pat repl (s.length + 1) s

/-- Rust `str::trim`: strip `char::is_whitespace` characters from both ends. -/
def rustTrim (s : List Char) : List Char :=
  ((s.dropWhile rustIsWhitespace).reverse.dropWhile rustIsWhitespace).reverse

/-- Fuel-indexed core of Rust `str::split` for a nonempty string pattern. -/
def splitOnSeqF (sep : List Char) : Nat → List Char → List (List Char)
  | 0, _ => [[]]
  | _ + 1, [] => [[]]
  | fuel + 1, c :: cs =>
    if sep.length ≠ 0 ∧ (c :: cs).take sep.length = sep then
      [] :: splitOnSeqF sep fuel ((c :: cs).drop sep.length)
    else
      match splitOnSeqF sep fuel cs with
      | [] => [[c]]
      | p :: ps => (c :: p) :: ps

/-- Rust `str::split` with a string pattern (as used on the sentence marker):
split on every non-overlapping occurrence, left to right. -/
def splitOnSeq (sep s : List Char) : List (List Char) :=
  splitOnSeqF sep (s.length + 1) s

/-! ### Normalizer configuration (`normalizer.rs`) -/

/-- `NormalizationMode` from `normalizer.rs`. -/
inductive NormalizationMode where
  | Page
  | Sentence
deriving DecidableEq

/-- `NormalizerConfig` from `normalizer.rs`.  `replacements` is the
`BTreeMap<String, String>` listed in ascending key order (its iteration
order); `drop_tokens` is the `Vec<String>`. -/
structure NormalizerConfig where
  enabled : Bool
  mode : NormalizationMode
  collapse_whitespace : Bool
  remove_space_before_punctuation : Bool
  strip_inline_code : Bool
  strip_markdown_links : Bool
  drop_numeric_bracket_citations : Bool
  drop_parenthetical_numeric_citations : Bool
  drop_square_bracket_text : Bool
  drop_curly_brace_text : Bool
  min_sentence_chars : Nat
  require_alphanumeric : Bool
  replacements : List (Str × Str)
  drop_tokens : List Str
deriving DecidableEq

/-- `NormalizerConfig::default()`: everything enabled, page mode, minimum two
characters, one replacement `"#" ↦ " "`. -/
def defaultNormalizerConfig : NormalizerConfig where
  enabled := true
  mode := NormalizationMode.Page
  collapse_whitespace := true
  remove_space_before_punctuation := true
  strip_inline_code := true
  strip_markdown_links := true
  drop_numeric_bracket_citations := true
  drop_parenthetical_numeric_citations := true
  drop_square_bracket_text := true
  drop_curly_brace_text := true
  min_sentence_chars := 2
  require_alphanumeric := true
  replacements := [("#".data, " ".data)]
  drop_tokens := []

/-- `PageNormalization` from `normalizer.rs`. -/
structure PageNormalization where
  audio_sentences : List Str
  display_to_audio : List (Option Nat)
  audio_to_display : List Nat
deriving DecidableEq

/-- Stable insertion of a replacement entry by descending pattern length:
`a` goes after every entry with a strictly longer pattern and before the
first entry whose pattern is not longer. -/
def insertByLen (a : Str × Str) : List (Str × Str) → List (Str × Str)
  | [] => [a]
  | y :: ys =>
    if a.1.length < y.1.length then y :: insertByLen a ys else a :: y :: ys

/-- Stable sort of the replacement table by descending pattern length,
mirroring `entries.sort_by_key(|(from, _)| Reverse(from.len()))` (Rust
`sort_by_key` is stable). -/
def sortByLenDesc : List (Str × Str) → List (Str × Str)
  | [] => []
  | a :: l => insertByLen a (sortByLenDesc l)

/-- `SENTENCE_MARKER` from `normalizer.rs`. -/
def SENTENCE_MARKER : Str := "\n<<__EBUP_SENTENCE_BOUNDARY__>>\n".data

namespace TextNormalizer

/-- `TextNormalizer::clean_text_core`: the ordered, individually toggleable
cleaning pipeline. -/
def clean_text_core (cfg : NormalizerConfig) (input : Str) : Str :=
  let t := input
  let t := if cfg.strip_markdown_links then replaceScan matchMarkdownLink t else t
  let t := if cfg.strip_inline_code then replaceScan matchInlineCode t else t
  let t := if cfg.drop_numeric_bracket_citations then
      replaceScan (matchCiteBody '[' ']') t else t
  let t := if cfg.drop_parenthetical_numeric_citations then
      replaceScan (matchCiteBody '(' ')') t else t
  let t := if cfg.drop_square_bracket_text then
      replaceScan (matchBracketBlock '[' ']') t else t
  let t := if cfg.drop_curly_brace_text then
      replaceScan (matchBracketBlock lbraceChar rbraceChar) t else t
  let t := if cfg.replacements.isEmpty then t
    else (sortByLenDesc cfg.replacements).foldl
      (fun acc pr => strReplace pr.1 pr.2 acc) t
  let t := if cfg.drop_tokens.isEmpty then t
    else cfg.drop_tokens.foldl
      (fun acc tok => if tok.isEmpty then acc else strReplace tok [' '] acc) t
  let t := if cfg.collapse_whitespace then replaceScan matchHorizWsRun t else t
  let t := if cfg.remove_space_before_punctuation then
      replaceScan matchSpaceBeforePunct t else t
  rustTrim t

/-- `TextNormalizer::finalize_sentence`: trim, then drop the sentence when it
is empty, lacks a required alphanumeric character, or is shorter than the
configured minimum. -/
def finalize_sentence (cfg : NormalizerConfig) (sentence : Str) : Option Str :=
  let trimmed := rustTrim sentence
  if trimmed.isEmpty then none
  else if cfg.require_alphanumeric && !(trimmed.any rustIsAlphanumeric) then none
  else if trimmed.length < max cfg.min_sentence_chars 1 then none
  else some trimmed

/-- `TextNormalizer::normalize_page_mode`: join on the marker, clean the whole
page, re-split; when the re-split count differs from the input count, fall
back to cleaning each sentence independently. -/
def normalize_page_mode (cfg : NormalizerConfig) (display_sentences : List Str) :
    List Str :=
  let joined := List.intercalate SENTENCE_MARKER display_sentences
  let cleaned := clean_text_core cfg joined
  let split := splitOnSeq SENTENCE_MARKER cleaned
  if split.length = display_sentences.length then split
  else display_sentences.map (clean_text_core cfg)

/-- The assembly loop of `TextNormalizer::plan_page`: walk the cleaned
sentences in display order carrying the current audio count (`audioCount`,
which is `audio_sentences.len()` at the moment of each push) and the current
display index.  Filling the preallocated `display_to_audio` slot of each
display index in increasing order is rendered as consing one entry per
sentence.  Returns `(audio_sentences, display_to_audio, audio_to_display)`. -/
def planLoop (cfg : NormalizerConfig) :
    List Str → Nat → Nat → List Str × List (Option Nat) × List Nat
  | [], _, _ => ([], [], [])
  | s :: rest, audioCount, displayIdx =>
    match finalize_sentence cfg s with
    | some cleaned =>
      let r := planLoop cfg rest (audioCount + 1) (displayIdx + 1)
      (cleaned :: r.1, some audioCount :: r.2.1, displayIdx :: r.2.2)
    | none =>
      let r := planLoop cfg rest audioCount (displayIdx + 1)
      (r.1, none :: r.2.1, r.2.2)

/-- The `cleaned_sentences` list `plan_page` feeds to the assembly loop when
normalization is enabled: page mode (with its fallback) or per-sentence
cleaning. -/
def planCleanedSentences (cfg : NormalizerConfig) (display_sentences : List Str) :
    List Str :=
  match cfg.mode with
  | NormalizationMode.Page => normalize_page_mode cfg display_sentences
  | NormalizationMode.Sentence =>
    display_sentences.map (clean_text_core cfg)

/-- `TextNormalizer::plan_page`. -/
def plan_page (cfg : NormalizerConfig) (display_sentences : List Str) :
    PageNormalization :=
  if display_sentences.isEmpty then
    { audio_sentences := [], display_to_audio := [], audio_to_display := [] }
  else if !cfg.enabled then
    { audio_sentences := display_sentences
      display_to_audio := (List.range display_sentences.length).map some
      audio_to_display := List.range display_sentences.length }
  else
    let cleaned_sentences := planCleanedSentences cfg display_sentences
    let r := planLoop cfg cleaned_sentences 0 0
    { audio_sentences := r.1, display_to_audio := r.2.1, audio_to_display := r.2.2 }

end TextNormalizer

/-! ### Application state (`app/update.rs`, `app/update/scroll.rs`)

The reducer arms and helpers cited by the claims are embedded one by one as
pure functions `state → state × effects`.  Only the state the embedded code
reads or writes is modelled. -/

/-- Rust `f32::clamp(lo, hi)` (for `lo ≤ hi`, which holds at every call site). -/
def clampQ (v lo hi : ℚ) : ℚ := min (max v lo) hi

/-- `f32::EPSILON` = 2⁻²³. -/
def f32Epsilon : ℚ := 1 / 8388608

/-- `Duration::from_secs_f32`, in nanoseconds: `⌊secs · 10⁹⌋` for the
nonnegative durations the source can produce (`from_secs_f32` panics on a
negative input), written on the numerator and denominator directly.  Exact
for every value used in this development. -/
def durationOfSecs (secs : ℚ) : Nat := secs.num.toNat * 1000000000 / secs.den

/-- `f32::round` (round half away from zero) on a rational. -/
def rustRoundF32 (q : ℚ) : Int := if 0 ≤ q then ⌊q + 1 / 2⌋ else -⌊-q + 1 / 2⌋

/-- A stored `iced` `RelativeOffset` whose `f32` components may be non-finite:
`none` models a NaN or infinite component. -/
structure StoredOffset where
  x : Option ℚ
  y : Option ℚ
deriving DecidableEq

/-- `RelativeOffset::START`. -/
def StoredOffset.START : StoredOffset := { x := some 0, y := some 0 }

/-- A computed `RelativeOffset` (always finite). -/
structure RelativeOffset where
  x : ℚ
  y : ℚ
deriving DecidableEq

/-- A playback handle; `paused` models what `PlaybackHandle::is_paused`
reports. -/
structure Playback where
  paused : Bool
deriving DecidableEq

/-- The TTS part of the app state (fields of `self.tts` read or written by the
embedded code).  `track` is the `Vec<(PathBuf, Duration)>`; durations are in
nanoseconds.  `request_id` is the `u64` counter. -/
structure TtsState where
  engine : Option Unit
  playback : Option Playback
  request_id : Nat
  track : List (Str × Nat)
  sentence_offset : Nat
  current_sentence_idx : Option Nat
  elapsed : Nat
  started_at : Option Nat
  running : Bool
  last_sentences : List Str
deriving DecidableEq

/-- The reader part of the app state.  `page_sentences` (per-page sentence
lists, used by `app/update/scroll.rs`) sits next to `pages`. -/
structure ReaderState where
  pages : List Str
  page_sentences : List (List Str)
  current_page : Nat
deriving DecidableEq

/-- The bookmark part of the app state: the last scroll offset plus the
geometry measurements used by `app/update/scroll.rs`.  The geometry fields are
forced finite and nonnegative by every write path in the sources, so they are
plain rationals here. -/
structure BookmarkState where
  last_scroll_offset : StoredOffset
  viewport_width : ℚ
  viewport_height : ℚ
  content_width : ℚ
  content_height : ℚ
  viewport_fraction : ℚ
deriving DecidableEq

/-- The font families distinguished by `estimated_glyph_width_px`
(`app/update/scroll.rs`); the full enum lives in the config module, which is
not among the provided sources — `Sans` stands for the families reached by its
wildcard arm. -/
inductive FontFamily where
  | Sans | Serif | Monospace | Courier | FiraCode | Lexend | NotoSans
  | AtkinsonHyperlegible | AtkinsonHyperlegibleNext | LexicaUltralegible
deriving DecidableEq

/-- `FontWeight` as matched in `app/update/scroll.rs`. -/
inductive FontWeight where
  | Light | Normal | Bold
deriving DecidableEq

/-- The configuration fields read by the embedded code.
`pause_after_sentence` is in seconds (an `f32` in the source, converted with
`Duration::from_secs_f32` at its use sites). -/
structure AppConfig where
  pause_after_sentence : ℚ
  tts_speed : ℚ
  tts_threads : Nat
  center_spoken_sentence : Bool
  auto_scroll_tts : Bool
  font_size : Nat
  font_family : FontFamily
  font_weight : FontWeight
  letter_spacing : Nat
  word_spacing : Nat
  line_spacing : ℚ
  margin_horizontal : Nat
  window_width : ℚ
  show_settings : Bool
deriving DecidableEq

/-- The application state aggregate. -/
structure App where
  reader : ReaderState
  tts : TtsState
  bookmark : BookmarkState
  config : AppConfig
deriving DecidableEq

/-- The effects the reducer can request (`Effect` in `app/update.rs`). -/
inductive Effect where
  | SaveConfig
  | SaveBookmark
  | StartTts (page : Nat) (sentence_idx : Nat)
  | StopTts
  | ScrollTo (offset : RelativeOffset)
  | AutoScrollToCurrent
deriving DecidableEq

/-- The `Bookmark` record written by `persist_bookmark`
(`page`, `sentence_idx`, `sentence_text`, `scroll_y`). -/
structure Bookmark where
  page : Nat
  sentence_idx : Option Nat
  sentence_text : Option Str
  scroll_y : ℚ
deriving DecidableEq

/-- One component of `App::sanitize_offset`: a finite value is clamped to
`[0, 1]`, a non-finite one becomes `0`. -/
def sanitizeComponent : Option ℚ → ℚ
  | none => 0
  | some v => clampQ v 0 1

namespace App

/-- `App::sanitize_offset` (`app/update.rs`). -/
def sanitize_offset (offset : StoredOffset) : RelativeOffset :=
  { x := sanitizeComponent offset.x, y := sanitizeComponent offset.y }

/-- Modelled from the spec: `App::stop_playback` is defined in the app state
module (`app/state.rs`), which is not among the provided sources.  Per the
spec (§3 `PlaybackSession`, §4.2) stopping destroys the active session: the
playback handle is dropped and the session is no longer running. -/
def stop_playback (s : App) : App :=
  { s with tts := { s.tts with playback := none, running := false, started_at := none } }

/-- The cumulative-duration walk of the `Message::Tick` arm: accumulate each
entry's duration plus the pause and return the position of the first entry
whose cumulative boundary is `≥ elapsed` (`none` when elapsed exceeds them
all).  `acc` and `i` carry the loop state. -/
def tickTargetAux (pause elapsed : Nat) :
    List (Str × Nat) → Nat → Nat → Option Nat
  | [], _, _ => none
  | (_, dur) :: rest, acc, i =>
    let acc2 := acc + dur + pause
    if elapsed ≤ acc2 then some i else tickTargetAux pause elapsed rest acc2 (i + 1)

/-- The position within the track resolved by a tick at `elapsed`. -/
def tickTargetIdx (track : List (Str × Nat)) (pause elapsed : Nat) : Option Nat :=
  tickTargetAux pause elapsed track 0 0

/-- The total duration of a track including one configured pause per entry. -/
def totalTrackDuration (track : List (Str × Nat)) (pause : Nat) : Nat :=
  (track.map (fun e => e.2 + pause)).sum

/-- The `Message::Tick(now)` arm of `App::reduce` (`app/update.rs`). -/
def reduceTick (s : App) (now : Nat) : App × List Effect :=
  if s.tts.running then
    if (s.tts.playback.map Playback.paused).getD false then (s, [])
    else
      match s.tts.started_at with
      | none => (s, [])
      | some started =>
        let elapsed := s.tts.elapsed + (now - started)
        let pause := durationOfSecs s.config.pause_after_sentence
        match tickTargetIdx s.tts.track pause elapsed with
        | some i =>
          let idx := s.tts.sentence_offset + i
          let clamped := min idx (s.tts.last_sentences.length - 1)
          if some clamped ≠ s.tts.current_sentence_idx then
            ({ s with tts := { s.tts with current_sentence_idx := some clamped } },
             [Effect.AutoScrollToCurrent, Effect.SaveBookmark])
          else (s, [])
        | none =>
          if s.reader.current_page + 1 < s.reader.pages.length then
            ({ s with
                reader := { s.reader with current_page := s.reader.current_page + 1 },
                bookmark := { s.bookmark with last_scroll_offset := StoredOffset.START } },
             [Effect.StopTts, Effect.StartTts (s.reader.current_page + 1) 0,
              Effect.AutoScrollToCurrent, Effect.SaveBookmark])
          else (s, [Effect.StopTts])
  else (s, [])

/-- The `Message::TtsPrepared` arm of `App::reduce` (`app/update.rs`).
`env` is the outcome of `engine.play_files` (`none` for `Err`), `now` is
`Instant::now()` at acceptance. -/
def reduceTtsPrepared (env : Option Playback) (now : Nat) (s : App)
    (page start_idx request_id : Nat) (files : List (Str × Nat)) :
    App × List Effect :=
  if request_id ≠ s.tts.request_id then (s, [])
  else if page ≠ s.reader.current_page then (s, [])
  else if files.isEmpty then
    let s1 := stop_playback s
    ({ s1 with tts := { s1.tts with current_sentence_idx := none } }, [])
  else
    let s1 := stop_playback s
    match s1.tts.engine with
    | none => (s1, [])
    | some _ =>
      match env with
      | some playback =>
        let offset := min start_idx (s1.tts.last_sentences.length - 1)
        ({ s1 with tts := { s1.tts with
            playback := some playback,
            track := files,
            sentence_offset := offset,
            current_sentence_idx := some offset,
            elapsed := 0,
            started_at := some now,
            running := true } },
         [Effect.AutoScrollToCurrent])
      | none => (s1, [])

/-- The `Message::PlayFromCursor(idx)` arm of `App::reduce`
(`app/update.rs`): emit the start/scroll/persist effects, touch no state. -/
def reducePlayFromCursor (s : App) (idx : Nat) : App × List Effect :=
  (s, [Effect.StartTts s.reader.current_page idx, Effect.AutoScrollToCurrent,
       Effect.SaveBookmark])

/-- The request handed to the external audio engine by
`start_playback_from` (the arguments of `engine.prepare_batch` plus the
captured `request_id`). -/
structure PrepareRequest where
  page : Nat
  sentences : List Str
  start_idx : Nat
  speed : ℚ
  threads : Nat
  request_id : Nat
deriving DecidableEq

/-- `App::start_playback_from` (`app/update.rs`).  `sentences` stands for
`split_sentences(...)` applied to the requested page's text
(`crate::text_utils` is not among the provided sources; the embedded code
treats the page's raw sentence list as given).  The returned request is
`some` exactly when a `prepare_batch` task is spawned. -/
def startPlaybackCore (s : App) (page sentence_idx : Nat)
    (sentences : List Str) : App × Option PrepareRequest :=
  match s.tts.engine with
  | none => (s, none)
  | some _ =>
    let s1 := stop_playback s
    let s2 := { s1 with tts := { s1.tts with
        track := [], elapsed := 0, started_at := none,
        last_sentences := sentences } }
    if sentences.isEmpty then
      ({ s2 with tts := { s2.tts with current_sentence_idx := none, sentence_offset := 0 } },
       none)
    else
      let idx := min sentence_idx (sentences.length - 1)
      let rid := (s2.tts.request_id + 1) % 2 ^ 64
      ({ s2 with tts := { s2.tts with
          sentence_offset := idx, current_sentence_idx := some idx,
          started_at := none, elapsed := 0, request_id := rid } },
       some { page := page, sentences := sentences, start_idx := idx,
              speed := s.config.tts_speed, threads := max s.config.tts_threads 1,
              request_id := rid })

/-- `App::persist_bookmark` (`app/update.rs`).  `sentences` stands for
`self.current_sentences()`, the sentence list of the currently displayed page
(computed in the source via `split_sentences`, which is not among the
provided sources). -/
def persist_bookmark (s : App) (sentences : List Str) : Bookmark :=
  let sentence_idx :=
    (s.tts.current_sentence_idx.filter (fun idx => idx < sentences.length)).orElse
      (fun _ =>
        if sentences.isEmpty then none
        else
          let frac := (sanitize_offset s.bookmark.last_scroll_offset).y
          let idx := (rustRoundF32 (frac * ((sentences.length - 1 : Nat) : ℚ))).toNat
          some (min idx (sentences.length - 1)))
  let sentence_text := sentence_idx.bind (fun idx => sentences.get? idx)
  { page := s.reader.current_page,
    sentence_idx := sentence_idx,
    sentence_text := sentence_text,
    scroll_y := (sanitize_offset s.bookmark.last_scroll_offset).y }

/-! ### Scroll position estimator (`app/update/scroll.rs`) -/

/-- Rust `char::is_ascii_punctuation`. -/
def isAsciiPunctuation (c : Char) : Bool :=
  (0x21 ≤ c.val && c.val ≤ 0x2F) || (0x3A ≤ c.val && c.val ≤ 0x40) ||
  (0x5B ≤ c.val && c.val ≤ 0x60) || (0x7B ≤ c.val && c.val ≤ 0x7E)

/-- Rust `char::is_ascii`. -/
def isAsciiChar (c : Char) : Bool := c.val ≤ 0x7F

/-- `App::estimated_glyph_width_px`. -/
def estimated_glyph_width_px (s : App) : ℚ :=
  let font_size : ℚ := (max s.config.font_size 1 : Nat)
  let family_scale : ℚ :=
    match s.config.font_family with
    | .Monospace | .Courier | .FiraCode => 64 / 100
    | .Serif => 56 / 100
    | .Lexend | .NotoSans => 54 / 100
    | .AtkinsonHyperlegible | .AtkinsonHyperlegibleNext
    | .LexicaUltralegible => 57 / 100
    | _ => 55 / 100
  let weight_scale : ℚ :=
    match s.config.font_weight with
    | .Light => 98 / 100
    | .Normal => 1
    | .Bold => 103 / 100
  font_size * family_scale * weight_scale

/-- `App::estimated_text_width`. -/
def estimated_text_width (s : App) : ℚ :=
  let base_width :=
    if 0 < s.bookmark.viewport_width then
      if 0 < s.bookmark.content_width then
        min s.bookmark.viewport_width s.bookmark.content_width
      else s.bookmark.viewport_width
    else if 0 < s.bookmark.content_width then s.bookmark.content_width
    else
      let fallback := max s.config.window_width 1
      let fallback := if s.config.show_settings then max (fallback - 320) 1 else fallback
      max (fallback - 48) 1
  let margin_total := min ((s.config.margin_horizontal : ℚ) * 2) (base_width * (9 / 10))
  max (base_width - margin_total) 1

/-- `App::estimated_viewport_fraction`.  The `is_finite` guard of the source
is vacuous here because the geometry fields are modelled as (finite)
rationals. -/
def estimated_viewport_fraction (s : App) : ℚ :=
  if 0 < s.bookmark.viewport_height ∧
      s.bookmark.viewport_height < s.bookmark.content_height then
    clampQ (s.bookmark.viewport_height / s.bookmark.content_height) (5 / 100) (95 / 100)
  else if 0 < s.bookmark.viewport_fraction then
    clampQ s.bookmark.viewport_fraction (5 / 100) (95 / 100)
  else 1 / 4

/-- One character of the word-wrap simulation in
`estimate_sentence_line_weights`: state is `(lines, line_units)`. -/
def wrapStep (maxUnits : ℚ) (letterSpacing wordSpacing : Nat)
    (st : ℚ × ℚ) (c : Char) : ℚ × ℚ :=
  if c = '\n' then (st.1 + 1, 0)
  else
    let units : ℚ :=
      if rustIsWhitespace c then 45 / 100 + (wordSpacing : ℚ) * (45 / 100)
      else if isAsciiPunctuation c then 55 / 100 + (letterSpacing : ℚ) * (10 / 100)
      else if isAsciiChar c then 1 + (letterSpacing : ℚ) * (35 / 100)
      else 9 / 5 + (letterSpacing : ℚ) * (20 / 100)
    if maxUnits < st.2 + units then (st.1 + 1, units) else (st.1, st.2 + units)

/-- `App::estimate_sentence_line_weights`. -/
def estimate_sentence_line_weights (s : App) (sentences : List Str) : List ℚ :=
  let available_width := estimated_text_width s
  if available_width ≤ f32Epsilon then sentences.map (fun _ => 1)
  else
    let glyph_width := max (estimated_glyph_width_px s) 1
    let max_units := max (available_width / glyph_width) 8
    sentences.map (fun sentence =>
      let st := sentence.foldl
        (wrapStep max_units s.config.letter_spacing s.config.word_spacing) (1, 0)
      st.1 * max s.config.line_spacing (8 / 10))

/-- `SentenceProgress` from `app/update/scroll.rs`. -/
structure SentenceProgress where
  start : ℚ
  middle : ℚ
deriving DecidableEq

/-- `App::sentence_progress_for_page` (`app/update/scroll.rs`). -/
def sentence_progress_for_page (s : App) (sentence_idx : Nat)
    (_total_sentences : Nat) : Option SentenceProgress :=
  match s.reader.pages.get? s.reader.current_page with
  | none => none
  | some _ =>
    match s.reader.page_sentences.get? s.reader.current_page with
    | none => none
    | some sentences =>
      if sentences.isEmpty then none
      else
        let sentence_weights := estimate_sentence_line_weights s sentences
        let idx := min sentence_idx (sentence_weights.length - 1)
        let total_weight := sentence_weights.sum
        if total_weight ≤ f32Epsilon then none
        else
          let before_weight := (sentence_weights.take idx).sum
          let sentence_weight := max (sentence_weights.getD idx 0) f32Epsilon
          some { start := clampQ (before_weight / total_weight) 0 1,
                 middle := clampQ ((before_weight + sentence_weight * (1 / 2)) / total_weight) 0 1 }

/-- The linear index-to-fraction fallback of `scroll_offset_for_sentence`
(the `unwrap_or_else` closure): used when weight estimation is
unavailable. -/
def fallbackProgress (sentence_idx total_sentences : Nat) : SentenceProgress :=
  let clamped_idx : ℚ := (min sentence_idx (total_sentences - 1) : Nat)
  let denom : ℚ := (max (total_sentences - 1) 1 : Nat)
  let ratio := clampQ (clamped_idx / denom) 0 1
  { start := ratio, middle := ratio }

/-- The `progress` local of `scroll_offset_for_sentence`: the weight-based
progress when available, the linear fallback otherwise. -/
def resolvedProgress (s : App) (sentence_idx total_sentences : Nat) :
    SentenceProgress :=
  (sentence_progress_for_page s sentence_idx total_sentences).getD
    (fallbackProgress sentence_idx total_sentences)

/-- `App::scroll_offset_for_sentence` (`app/update/scroll.rs`). -/
def scroll_offset_for_sentence (s : App) (sentence_idx total_sentences : Nat) :
    Option RelativeOffset :=
  if total_sentences = 0 then none
  else
    let progress := resolvedProgress s sentence_idx total_sentences
    let viewport_fraction := estimated_viewport_fraction s
    if 999 / 1000 ≤ viewport_fraction then some { x := 0, y := 0 }
    else
      let desired_top :=
        if s.config.center_spoken_sentence then
          min (progress.middle - (1 / 2) * viewport_fraction)
              (progress.start - (8 / 100) * viewport_fraction)
        else progress.start - (20 / 100) * viewport_fraction
      let scrollable_fraction := max (1 - viewport_fraction) (1 / 10000)
      some { x := 0, y := clampQ (desired_top / scrollable_fraction) 0 1 }

end App

/-- Follows the spec's words (§4.2, `PlayFromCursor`): "translate
`display_idx` through the Normalizer's mapping to find an audio sentence
index (skip forward to the nearest surviving sentence if the requested index
was dropped)".  Used to compare the source's `start_playback_from` against
the specified translation. -/
def specResolveAudioStart (plan : PageNormalization) (display_idx : Nat) :
    Option Nat :=
  ((plan.display_to_audio.drop display_idx).findSome? (fun x => x))

/-! ### Concrete states used by witnesses and counterexamples -/

/-- A concrete configuration: the defaults of the sources (16&nbsp;px, pause of
half a second, centered tracking on). -/
def sampleConfig : AppConfig where
  pause_after_sentence := mkRat 1 2
  tts_speed := mkRat 1 1
  tts_threads := 4
  center_spoken_sentence := true
  auto_scroll_tts := true
  font_size := 16
  font_family := FontFamily.Sans
  font_weight := FontWeight.Normal
  letter_spacing := 0
  word_spacing := 0
  line_spacing := 12 / 10
  margin_horizontal := 0
  window_width := 1280
  show_settings := false

/-- A running session over the two-clip track of the spec's tick scenario:
`[(clip0, 2 s), (clip1, 3 s)]`, `sentence_offset = 0`. -/
def sampleTts : TtsState where
  engine := none
  playback := none
  request_id := 0
  track := [("clip0.wav".data, 2000000000), ("clip1.wav".data, 3000000000)]
  sentence_offset := 0
  current_sentence_idx := none
  elapsed := 0
  started_at := some 0
  running := true
  last_sentences := ["s0".data, "s1".data]

/-- A concrete state for the tick scenario. -/
def tickSampleApp : App where
  reader := { pages := ["p0".data, "p1".data], page_sentences := [], current_page := 0 }
  tts := sampleTts
  bookmark := { last_scroll_offset := StoredOffset.START, viewport_width := 0,
                viewport_height := 0, content_width := 0, content_height := 0,
                viewport_fraction := 0 }
  config := sampleConfig

/-- A concrete state for the scroll estimator: a one-page document with two
equal sentences and measured geometry `viewport 100×90`, `content 100×100`
(viewport fraction `0.9`). -/
def scrollSampleApp : App where
  reader := { pages := ["Aa aa.".data], page_sentences := [["aa".data, "aa".data]],
              current_page := 0 }
  tts := sampleTts
  bookmark := { last_scroll_offset := StoredOffset.START, viewport_width := 100,
                viewport_height := 90, content_width := 100, content_height := 100,
                viewport_fraction := 0 }
  config := sampleConfig

/-- A concrete state whose session points at sentence 1, for the bookmark
writer. -/
def bookmarkSampleApp : App :=
  { scrollSampleApp with tts := { sampleTts with current_sentence_idx := some 1 } }

/-- A concrete state with a TTS engine present, for the cursor-start path. -/
def cursorSampleApp : App :=
  { tickSampleApp with tts := { sampleTts with engine := some () } }

/-- A page whose first display sentence (`"[]"`) is dropped by the default
normalizer. -/
def cursorSampleSentences : List Str :=
  ["[]".data, "Hello.".data, "World.".data]

/-- The prepare request `start_playback_from` emits for
`cursorSampleApp`/`cursorSampleSentences` at display index 1. -/
def cursorSampleRequest : App.PrepareRequest where
  page := 1
  sentences := cursorSampleSentences
  start_idx := 1
  speed := mkRat 1 1
  threads := 4
  request_id := 1

/-! ## Theorems -/

/-- `clampQ v 0 1` lands in `[0, 1]`. -/
theorem clampQ_unit_mem (v : ℚ) : 0 ≤ clampQ v 0 1 ∧ clampQ v 0 1 ≤ 1 :=
  ⟨le_min (le_max_right v 0) zero_le_one, min_le_right _ _⟩

/-- `clampQ` is monotone in its value argument. -/
theorem clampQ_mono {a b lo hi : ℚ} (h : a ≤ b) :
    clampQ a lo hi ≤ clampQ b lo hi :=
  min_le_min (max_le_max h le_rfl) le_rfl

/-- A nonpositive value clamped to `[0, 1]` is `0`. -/
theorem clampQ_of_nonpos {v : ℚ} (h : v ≤ 0) : clampQ v 0 1 = 0 := by
  unfold clampQ
  rw [max_eq_right h, min_eq_left zero_le_one]

/-- C2: a `TtsPrepared` event whose `request_id` differs from the session's
counter, or whose `page` differs from the displayed page, leaves the whole
state unchanged and produces no effects. -/
theorem ttsPrepared_stale_is_ignored (env : Option Playback) (now : Nat)
    (s : App) (page start_idx request_id : Nat) (files : List (Str × Nat))
    (h : request_id ≠ s.tts.request_id ∨ page ≠ s.reader.current_page) :
    App.reduceTtsPrepared env now s page start_idx request_id files = (s, []) := by
  unfold App.reduceTtsPrepared
  rcases h with h | h
  · rw [if_pos h]
  · by_cases hr : request_id = s.tts.request_id
    · rw [if_neg (by simpa using hr), if_pos h]
    · rw [if_pos hr]

theorem ttsPrepared_stale_is_ignored_witness :
    ((7 : Nat) ≠ tickSampleApp.tts.request_id ∨
      (0 : Nat) ≠ tickSampleApp.reader.current_page) ∧
    App.reduceTtsPrepared none 0 tickSampleApp 0 0 7 [] = (tickSampleApp, []) :=
  ⟨Or.inl (by decide),
   ttsPrepared_stale_is_ignored none 0 tickSampleApp 0 0 7 [] (Or.inl (by decide))⟩

/-- C3: with track `[(clip0, 2 s), (clip1, 3 s)]`, pause `0.5 s` and
`sentence_offset 0`, a tick whose accumulated elapsed time is `2.2 s`
resolves `current_sentence_idx` to audio index 0, and one at `2.6 s`
resolves it to audio index 1. -/
theorem tick_resolves_scenario_indices :
    (App.reduceTick tickSampleApp 2200000000).1.tts.current_sentence_idx = some 0 ∧
    (App.reduceTick tickSampleApp 2600000000).1.tts.current_sentence_idx = some 1 := by
  decide

/-- C9: with the default (citation-dropping) configuration,
`plan_page ["See prior work [12, 13].", "It matters."]` yields the audio
sentences `["See prior work.", "It matters."]` with
`display_to_audio = [Some 0, Some 1]`. -/
theorem plan_page_citation_scenario :
    TextNormalizer.plan_page defaultNormalizerConfig
        ["See prior work [12, 13].".data, "It matters.".data] =
      { audio_sentences := ["See prior work.".data, "It matters.".data],
        display_to_audio := [some 0, some 1],
        audio_to_display := [0, 1] } := by
  decide

/-- Page-mode cleaning preserves the sentence count (via the fallback when
the marker re-split count differs). -/
theorem normalize_page_mode_length (cfg : NormalizerConfig) (ds : List Str) :
    (TextNormalizer.normalize_page_mode cfg ds).length = ds.length := by
  simp only [TextNormalizer.normalize_page_mode]
  split
  · assumption
  · exact List.length_map ds _

/-- C4: page-mode cleaning always yields one cleaned sentence per input
display sentence, and whenever the marker re-split count differs from the
input count it does so by falling back to cleaning each sentence
independently. -/
theorem page_mode_count_preserved (cfg : NormalizerConfig) (ds : List Str) :
    (TextNormalizer.normalize_page_mode cfg ds).length = ds.length ∧
    ((splitOnSeq SENTENCE_MARKER
        (TextNormalizer.clean_text_core cfg (List.intercalate SENTENCE_MARKER ds))).length
          ≠ ds.length →
      TextNormalizer.normalize_page_mode cfg ds =
        ds.map (TextNormalizer.clean_text_core cfg)) := by
  refine ⟨normalize_page_mode_length cfg ds, ?_⟩
  intro h
  simp only [TextNormalizer.normalize_page_mode]
  rw [if_neg h]

/-- `sanitizeComponent` always lands in `[0, 1]`. -/
theorem sanitizeComponent_mem (o : Option ℚ) :
    0 ≤ sanitizeComponent o ∧ sanitizeComponent o ≤ 1 := by
  cases o with
  | none => exact ⟨le_refl 0, zero_le_one⟩
  | some v => exact clampQ_unit_mem v

/-- The bookmark's `sentence_text` is the sentence list read at the
bookmark's `sentence_idx`. -/
theorem persist_bookmark_sentence_text (s : App) (sentences : List Str) :
    (App.persist_bookmark s sentences).sentence_text =
      (App.persist_bookmark s sentences).sentence_idx.bind
        (fun idx => sentences.get? idx) := rfl

/-- The bookmark's `sentence_idx` is `none` exactly on an empty sentence
list, and otherwise lies inside the list. -/
theorem persist_bookmark_idx_cases (s : App) (sentences : List Str) :
    ((App.persist_bookmark s sentences).sentence_idx = none ∧ sentences = []) ∨
    (∃ i, (App.persist_bookmark s sentences).sentence_idx = some i ∧
      i < sentences.length) := by
  have hidx : (App.persist_bookmark s sentences).sentence_idx =
      (s.tts.current_sentence_idx.filter
          (fun idx => idx < sentences.length)).orElse
        (fun _ =>
          if sentences.isEmpty then none
          else
            let frac := (App.sanitize_offset s.bookmark.last_scroll_offset).y
            let idx := (rustRoundF32 (frac * ((sentences.length - 1 : Nat) : ℚ))).toNat
            some (min idx (sentences.length - 1))) := rfl
  by_cases hemp : sentences.isEmpty
  · left
    have hnil : sentences = [] := by
      cases sentences with
      | nil => rfl
      | cons a l => simp [List.isEmpty] at hemp
    subst hnil
    constructor
    · rw [hidx]
      cases hcur : s.tts.current_sentence_idx with
      | none => rfl
      | some cj => simp [Option.filter, Option.orElse]
    · rfl
  · right
    have hlenpos : 0 < sentences.length := by
      cases sentences with
      | nil => simp [List.isEmpty] at hemp
      | cons a l => exact Nat.succ_pos _
    rw [hidx]
    cases hcur : s.tts.current_sentence_idx with
    | none =>
      refine ⟨min ((rustRoundF32
          ((App.sanitize_offset s.bookmark.last_scroll_offset).y *
            ((sentences.length - 1 : Nat) : ℚ))).toNat) (sentences.length - 1), ?_, ?_⟩
      · simp [Option.filter, Option.orElse, hemp]
      · have := Nat.min_le_right ((rustRoundF32
            ((App.sanitize_offset s.bookmark.last_scroll_offset).y *
              ((sentences.length - 1 : Nat) : ℚ))).toNat) (sentences.length - 1)
        omega
    | some cj =>
      by_cases hc : cj < sentences.length
      · exact ⟨cj, by simp [Option.filter, Option.orElse, hc], hc⟩
      · refine ⟨min ((rustRoundF32
            ((App.sanitize_offset s.bookmark.last_scroll_offset).y *
              ((sentences.length - 1 : Nat) : ℚ))).toNat) (sentences.length - 1), ?_, ?_⟩
        · simp [Option.filter, Option.orElse, hemp, hc]
        · have := Nat.min_le_right ((rustRoundF32
              ((App.sanitize_offset s.bookmark.last_scroll_offset).y *
                ((sentences.length - 1 : Nat) : ℚ))).toNat) (sentences.length - 1)
          omega

/-- C10: every bookmark written by `persist_bookmark` is internally valid:
`scroll_y` lies in `[0, 1]` (a non-finite stored offset is sanitized to 0),
a `Some i` sentence index points inside the page's sentence list with
`sentence_text` equal to exactly that sentence, and the index is `None` only
when the page has no sentences. -/
theorem persist_bookmark_record_valid (s : App) (sentences : List Str) :
    (0 ≤ (App.persist_bookmark s sentences).scroll_y ∧
      (App.persist_bookmark s sentences).scroll_y ≤ 1) ∧
    (s.bookmark.last_scroll_offset.y = none →
      (App.persist_bookmark s sentences).scroll_y = 0) ∧
    (∀ i, (App.persist_bookmark s sentences).sentence_idx = some i →
      i < sentences.length ∧
        (App.persist_bookmark s sentences).sentence_text = sentences.get? i) ∧
    ((App.persist_bookmark s sentences).sentence_idx = none → sentences = []) := by
  refine ⟨?_, ?_, ?_, ?_⟩
  · exact sanitizeComponent_mem s.bookmark.last_scroll_offset.y
  · intro hy
    show sanitizeComponent s.bookmark.last_scroll_offset.y = 0
    rw [hy]
    rfl
  · intro i hi
    rcases persist_bookmark_idx_cases s sentences with ⟨hnone, _⟩ | ⟨i2, hsome, hlt⟩
    · rw [hnone] at hi; exact absurd hi (by simp)
    · have hi2 : i2 = i := by
        rw [hsome] at hi
        exact Option.some.inj hi
      subst hi2
      refine ⟨hlt, ?_⟩
      rw [persist_bookmark_sentence_text, hi]
      rfl
  · intro hnone
    rcases persist_bookmark_idx_cases s sentences with ⟨_, hnil⟩ | ⟨i2, hsome, _⟩
    · exact hnil
    · rw [hsome] at hnone; exact absurd hnone (by simp)

theorem persist_bookmark_record_valid_witness :
    (App.persist_bookmark bookmarkSampleApp ["aa".data, "bb".data]).sentence_idx = some 1 ∧
    (1 < (["aa".data, "bb".data] : List Str).length ∧
      (App.persist_bookmark bookmarkSampleApp ["aa".data, "bb".data]).sentence_text =
        (["aa".data, "bb".data] : List Str).get? 1) :=
  ⟨by decide,
   (persist_bookmark_record_valid bookmarkSampleApp ["aa".data, "bb".data]).2.2.1 1 (by decide)⟩

/-- `planLoop` on the empty list. -/
theorem planLoop_nil (cfg : NormalizerConfig) (a d : Nat) :
    TextNormalizer.planLoop cfg [] a d = ([], [], []) := rfl

/-- `planLoop` on a surviving sentence: push it, record its audio index. -/
theorem planLoop_cons_some (cfg : NormalizerConfig) (s : Str) (rest : List Str)
    (a d : Nat) (cleaned : Str)
    (hf : TextNormalizer.finalize_sentence cfg s = some cleaned) :
    TextNormalizer.planLoop cfg (s :: rest) a d =
      (cleaned :: (TextNormalizer.planLoop cfg rest (a + 1) (d + 1)).1,
        some a :: (TextNormalizer.planLoop cfg rest (a + 1) (d + 1)).2.1,
        d :: (TextNormalizer.planLoop cfg rest (a + 1) (d + 1)).2.2) := by
  simp only [TextNormalizer.planLoop, hf]

/-- `planLoop` on a dropped sentence: record `none`, emit no audio entry. -/
theorem planLoop_cons_none (cfg : NormalizerConfig) (s : Str) (rest : List Str)
    (a d : Nat) (hf : TextNormalizer.finalize_sentence cfg s = none) :
    TextNormalizer.planLoop cfg (s :: rest) a d =
      ((TextNormalizer.planLoop cfg rest a (d + 1)).1,
        none :: (TextNormalizer.planLoop cfg rest a (d + 1)).2.1,
        (TextNormalizer.planLoop cfg rest a (d + 1)).2.2) := by
  simp only [TextNormalizer.planLoop, hf]

/-- The plan loop emits one `display_to_audio` entry per cleaned sentence. -/
theorem planLoop_d2a_length (cfg : NormalizerConfig) :
    ∀ (l : List Str) (a d : Nat),
      (TextNormalizer.planLoop cfg l a d).2.1.length = l.length := by
  intro l
  induction l with
  | nil => intro a d; rfl
  | cons s rest ih =>
    intro a d
    cases hf : TextNormalizer.finalize_sentence cfg s with
    | some cleaned => rw [planLoop_cons_some cfg s rest a d cleaned hf]; simp [ih]
    | none => rw [planLoop_cons_none cfg s rest a d hf]; simp [ih]

/-- The plan loop emits one audio sentence per `audio_to_display` entry. -/
theorem planLoop_audio_length (cfg : NormalizerConfig) :
    ∀ (l : List Str) (a d : Nat),
      (TextNormalizer.planLoop cfg l a d).1.length =
        (TextNormalizer.planLoop cfg l a d).2.2.length := by
  intro l
  induction l with
  | nil => intro a d; rfl
  | cons s rest ih =>
    intro a d
    cases hf : TextNormalizer.finalize_sentence cfg s with
    | some cleaned => rw [planLoop_cons_some cfg s rest a d cleaned hf]; simp [ih]
    | none => rw [planLoop_cons_none cfg s rest a d hf]; simp [ih]

/-- Every `audio_to_display` entry of the plan loop is answered by the
matching `display_to_audio` entry. -/
theorem planLoop_a2d_spec (cfg : NormalizerConfig) :
    ∀ (l : List Str) (a d j x : Nat),
      (TextNormalizer.planLoop cfg l a d).2.2.get? j = some x →
      ∃ k, x = d + k ∧
        (TextNormalizer.planLoop cfg l a d).2.1.get? k = some (some (a + j)) := by
  intro l
  induction l with
  | nil => intro a d j x h; simp [planLoop_nil] at h
  | cons s rest ih =>
    intro a d j x h
    cases hf : TextNormalizer.finalize_sentence cfg s with
    | some cleaned =>
      rw [planLoop_cons_some cfg s rest a d cleaned hf] at h ⊢
      cases j with
      | zero =>
        simp only [List.get?] at h
        have hx : x = d := (Option.some.inj h).symm
        refine ⟨0, by omega, ?_⟩
        simp
      | succ j2 =>
        simp only [List.get?] at h
        obtain ⟨k, hx, hg⟩ := ih (a + 1) (d + 1) j2 x h
        refine ⟨k + 1, by omega, ?_⟩
        simp only [List.get?]
        rw [hg]
        have h3 : a + 1 + j2 = a + (j2 + 1) := by omega
        rw [h3]
    | none =>
      rw [planLoop_cons_none cfg s rest a d hf] at h ⊢
      obtain ⟨k, hx, hg⟩ := ih a (d + 1) j x h
      refine ⟨k + 1, by omega, ?_⟩
      simp only [List.get?]
      exact hg

/-- Every surviving `display_to_audio` entry of the plan loop is answered by
the matching `audio_to_display` entry. -/
theorem planLoop_d2a_spec (cfg : NormalizerConfig) :
    ∀ (l : List Str) (a d k v : Nat),
      (TextNormalizer.planLoop cfg l a d).2.1.get? k = some (some v) →
      ∃ j, v = a + j ∧
        (TextNormalizer.planLoop cfg l a d).2.2.get? j = some (d + k) := by
  intro l
  induction l with
  | nil => intro a d k v h; simp [planLoop_nil] at h
  | cons s rest ih =>
    intro a d k v h
    cases hf : TextNormalizer.finalize_sentence cfg s with
    | some cleaned =>
      rw [planLoop_cons_some cfg s rest a d cleaned hf] at h ⊢
      cases k with
      | zero =>
        simp only [List.get?] at h
        have hv : v = a := by
          have h2 := Option.some.inj (Option.some.inj h)
          omega
        refine ⟨0, by omega, ?_⟩
        simp
      | succ k2 =>
        simp only [List.get?] at h
        obtain ⟨j, hv, hg⟩ := ih (a + 1) (d + 1) k2 v h
        refine ⟨j + 1, by omega, ?_⟩
        simp only [List.get?]
        rw [hg]
        have h3 : d + 1 + k2 = d + (k2 + 1) := by omega
        rw [h3]
    | none =>
      rw [planLoop_cons_none cfg s rest a d hf] at h ⊢
      cases k with
      | zero =>
        simp only [List.get?] at h
        exact absurd (Option.some.inj h) (by simp)
      | succ k2 =>
        simp only [List.get?] at h
        obtain ⟨j, hv, hg⟩ := ih a (d + 1) k2 v h
        refine ⟨j, hv, ?_⟩
        rw [hg]
        have h3 : d + 1 + k2 = d + (k2 + 1) := by omega
        rw [h3]


/-- The three outputs of the plan loop started at zero counters satisfy the
mutual-inverse package. -/
theorem planLoop_inverse_package (cfg : NormalizerConfig) (cleaned : List Str) :
    (TextNormalizer.planLoop cfg cleaned 0 0).1.length =
      (TextNormalizer.planLoop cfg cleaned 0 0).2.2.length ∧
    (TextNormalizer.planLoop cfg cleaned 0 0).2.1.length = cleaned.length ∧
    (∀ j d, (TextNormalizer.planLoop cfg cleaned 0 0).2.2.get? j = some d →
      (TextNormalizer.planLoop cfg cleaned 0 0).2.1.get? d = some (some j)) ∧
    (∀ d j, (TextNormalizer.planLoop cfg cleaned 0 0).2.1.get? d = some (some j) →
      (TextNormalizer.planLoop cfg cleaned 0 0).2.2.get? j = some d) := by
  refine ⟨planLoop_audio_length cfg cleaned 0 0, planLoop_d2a_length cfg cleaned 0 0, ?_, ?_⟩
  · intro j d h
    obtain ⟨k, hx, hg⟩ := planLoop_a2d_spec cfg cleaned 0 0 j d h
    have hdk : d = k := by omega
    subst hdk
    simpa using hg
  · intro d j h
    obtain ⟨j2, hv, hg⟩ := planLoop_d2a_spec cfg cleaned 0 0 d j h
    have hj : j = j2 := by omega
    subst hj
    simpa using hg

/-- C1: for every display-sentence list and every normalizer configuration,
the plan has `len audio_sentences = len audio_to_display`,
`len display_to_audio = len input`, and `audio_to_display` /
`display_to_audio` are mutual inverses restricted to surviving indices. -/
theorem plan_page_mapping_invariant (cfg : NormalizerConfig) (ds : List Str) :
    (TextNormalizer.plan_page cfg ds).audio_sentences.length =
      (TextNormalizer.plan_page cfg ds).audio_to_display.length ∧
    (TextNormalizer.plan_page cfg ds).display_to_audio.length = ds.length ∧
    (∀ j d, (TextNormalizer.plan_page cfg ds).audio_to_display.get? j = some d →
      (TextNormalizer.plan_page cfg ds).display_to_audio.get? d = some (some j)) ∧
    (∀ d j, (TextNormalizer.plan_page cfg ds).display_to_audio.get? d = some (some j) →
      (TextNormalizer.plan_page cfg ds).audio_to_display.get? j = some d) := by
  by_cases hds : ds.isEmpty
  · have hnil : ds = [] := by
      cases ds with
      | nil => rfl
      | cons a l => simp [List.isEmpty] at hds
    subst hnil
    refine ⟨rfl, rfl, ?_, ?_⟩ <;> intro u v h <;>
      simp [TextNormalizer.plan_page] at h
  · by_cases hen : cfg.enabled
    · have hplan :
          TextNormalizer.plan_page cfg ds =
            { audio_sentences :=
                (TextNormalizer.planLoop cfg (TextNormalizer.planCleanedSentences cfg ds) 0 0).1,
              display_to_audio :=
                (TextNormalizer.planLoop cfg (TextNormalizer.planCleanedSentences cfg ds) 0 0).2.1,
              audio_to_display :=
                (TextNormalizer.planLoop cfg (TextNormalizer.planCleanedSentences cfg ds) 0 0).2.2 } := by
        simp [TextNormalizer.plan_page, hds, hen]
      have hclen : (TextNormalizer.planCleanedSentences cfg ds).length = ds.length := by
        unfold TextNormalizer.planCleanedSentences
        cases cfg.mode with
        | Page => exact normalize_page_mode_length cfg ds
        | Sentence => exact List.length_map ds _
      obtain ⟨h1, h2, h3, h4⟩ :=
        planLoop_inverse_package cfg (TextNormalizer.planCleanedSentences cfg ds)
      rw [hplan]
      exact ⟨h1, by rw [h2, hclen], h3, h4⟩
    · have hplan :
          TextNormalizer.plan_page cfg ds =
            { audio_sentences := ds
              display_to_audio := (List.range ds.length).map some
              audio_to_display := List.range ds.length } := by
        simp [TextNormalizer.plan_page, hds, hen]
      rw [hplan]
      refine ⟨by simp, by simp, ?_, ?_⟩
      · intro j d h
        have hj : j < ds.length := by
          have hlen := List.get?_eq_some.mp h
          obtain ⟨hlt, _⟩ := hlen
          simpa using hlt
        have hdj : d = j := by
          rw [List.get?_range hj] at h
          exact (Option.some.inj h).symm
        subst hdj
        rw [List.get?_map, List.get?_range hj]
        rfl
      · intro d j h
        rw [List.get?_map] at h
        cases hr : (List.range ds.length).get? d with
        | none => rw [hr] at h; exact absurd h (by simp)
        | some v =>
          rw [hr] at h
          have hd : d < ds.length := by
            have h5 := List.get?_eq_some.mp hr
            obtain ⟨hlt, _⟩ := h5
            simpa using hlt
          rw [List.get?_range hd] at hr
          have hv : v = d := (Option.some.inj hr).symm
          have hj : j = v := by
            simp only [Option.map] at h
            exact (Option.some.inj (Option.some.inj h)).symm
          subst hv; subst hj
          exact List.get?_range hd

/-- C5 counterexample: at a concrete state whose first display sentence
(`"[]"`) is dropped by the default normalizer, `start_playback_from`
requests synthesis at the clamped raw display index 1, whereas translating
display index 1 through the normalizer's `display_to_audio` mapping yields
audio index 0 — the claimed translation does not happen. -/
theorem playback_start_translation_counterexample :
    ¬ (∀ req, (App.startPlaybackCore cursorSampleApp 1 1 cursorSampleSentences).2 =
          some req →
        some req.start_idx =
          specResolveAudioStart
            (TextNormalizer.plan_page defaultNormalizerConfig cursorSampleSentences) 1) := by
  intro hclaim
  have hreq : (App.startPlaybackCore cursorSampleApp 1 1 cursorSampleSentences).2 =
      some cursorSampleRequest := by decide
  have h2 := hclaim cursorSampleRequest hreq
  have h3 : specResolveAudioStart
      (TextNormalizer.plan_page defaultNormalizerConfig cursorSampleSentences) 1 =
      some 0 := by decide
  rw [h3] at h2
  have h4 : cursorSampleRequest.start_idx = 0 := Option.some.inj h2
  exact absurd h4 (by decide)

/-- C5 amended: starting playback from a cursor position clamps the
requested display index to the page's raw sentence count and passes it,
together with the raw (un-normalized) display sentences, directly to the
audio engine; the session's `sentence_offset` and `current_sentence_idx`
are set to the same clamped display index.  No display→audio translation
through the Normalizer's mapping occurs in `start_playback_from`. -/
theorem playback_start_uses_raw_index (s : App) (page idx : Nat)
    (sentences : List Str) (heng : s.tts.engine = some ())
    (hne : sentences ≠ []) :
    (App.startPlaybackCore s page idx sentences).2 =
      some { page := page, sentences := sentences,
             start_idx := min idx (sentences.length - 1),
             speed := s.config.tts_speed,
             threads := max s.config.tts_threads 1,
             request_id := (s.tts.request_id + 1) % 2 ^ 64 } ∧
    (App.startPlaybackCore s page idx sentences).1.tts.sentence_offset =
      min idx (sentences.length - 1) ∧
    (App.startPlaybackCore s page idx sentences).1.tts.current_sentence_idx =
      some (min idx (sentences.length - 1)) := by
  have hemp : sentences.isEmpty = false := by
    cases sentences with
    | nil => exact absurd rfl hne
    | cons a l => rfl
  unfold App.startPlaybackCore
  rw [heng]
  simp [hemp, App.stop_playback]

theorem playback_start_uses_raw_index_witness :
    (cursorSampleApp.tts.engine = some () ∧ cursorSampleSentences ≠ []) ∧
    (App.startPlaybackCore cursorSampleApp 1 1 cursorSampleSentences).2 =
      some { page := 1, sentences := cursorSampleSentences,
             start_idx := min 1 (cursorSampleSentences.length - 1),
             speed := cursorSampleApp.config.tts_speed,
             threads := max cursorSampleApp.config.tts_threads 1,
             request_id := (cursorSampleApp.tts.request_id + 1) % 2 ^ 64 } :=
  ⟨⟨by decide, by decide⟩,
   (playback_start_uses_raw_index cursorSampleApp 1 1 cursorSampleSentences
      (by decide) (by decide)).1⟩

/-- C8 counterexample: with centered tracking enabled and an estimated
viewport fraction of exactly `0.9`, the scroll offset for the second of two
sentences is `{x: 0, y: 1}`, not `{x: 0, y: 0}` — the always-top behaviour
requires `viewport_fraction ≥ 0.999`, which the estimator's clamp to `0.95`
never produces. -/
theorem centered_scroll_not_always_top_counterexample :
    scrollSampleApp.config.center_spoken_sentence = true ∧
    App.estimated_viewport_fraction scrollSampleApp = 9 / 10 ∧
    App.scroll_offset_for_sentence scrollSampleApp 1 2 ≠ some { x := 0, y := 0 } := by
  refine ⟨rfl, ?_, ?_⟩
  · norm_num [App.estimated_viewport_fraction, scrollSampleApp, clampQ]
  · have h : App.scroll_offset_for_sentence scrollSampleApp 1 2 =
        some { x := 0, y := 1 } := by
      norm_num +decide [App.scroll_offset_for_sentence, App.resolvedProgress,
        App.fallbackProgress, App.sentence_progress_for_page,
        App.estimate_sentence_line_weights, App.estimated_text_width,
        App.estimated_glyph_width_px, App.estimated_viewport_fraction,
        scrollSampleApp, sampleConfig, f32Epsilon, clampQ,
        App.wrapStep, rustIsWhitespace, App.isAsciiPunctuation, App.isAsciiChar]
    rw [h]
    intro hc
    have h2 := Option.some.inj hc
    have h3 : (1 : ℚ) = 0 := congrArg RelativeOffset.y h2
    norm_num at h3

/-- The start fraction reported for sentence index 0 is always 0. -/
theorem sentence_progress_start_zero (s : App) (t : Nat) :
    ∀ p, App.sentence_progress_for_page s 0 t = some p → p.start = 0 := by
  intro p h
  unfold App.sentence_progress_for_page at h
  split at h
  · simp at h
  · split at h
    · simp at h
    · split at h
      · simp at h
      · dsimp only at h
        split at h
        · simp at h
        · have hp := Option.some.inj h
          rw [← hp]
          norm_num [clampQ, Nat.zero_min, List.take_zero, List.sum_nil]

/-- With a nonzero sentence count and a viewport fraction below the
early-return threshold, `scroll_offset_for_sentence` returns the clamped,
scrollable-range-normalised desired top. -/
theorem scroll_offset_eval (s : App) (i total : Nat) (h0 : ¬ total = 0)
    (hlt : ¬ (999 / 1000 ≤ App.estimated_viewport_fraction s)) :
    App.scroll_offset_for_sentence s i total =
      some { x := 0,
             y := clampQ
              ((if s.config.center_spoken_sentence then
                  min ((App.resolvedProgress s i total).middle -
                        1 / 2 * App.estimated_viewport_fraction s)
                      ((App.resolvedProgress s i total).start -
                        8 / 100 * App.estimated_viewport_fraction s)
                else (App.resolvedProgress s i total).start -
                      20 / 100 * App.estimated_viewport_fraction s) /
               max (1 - App.estimated_viewport_fraction s) (1 / 10000)) 0 1 } := by
  simp only [App.scroll_offset_for_sentence, h0, hlt, if_false, ite_false]

/-- The resolved progress of sentence index 0 starts at fraction 0. -/
theorem resolvedProgress_start_zero (s : App) (total : Nat) :
    (App.resolvedProgress s 0 total).start = 0 := by
  unfold App.resolvedProgress
  cases hsp : App.sentence_progress_for_page s 0 total with
  | none =>
    simp only [Option.getD]
    simp [App.fallbackProgress, clampQ]
  | some p =>
    simp only [Option.getD]
    exact sentence_progress_start_zero s total p hsp

/-- C8 amended: with centered tracking enabled and a viewport fraction of
`0.9`, the offset returned for sentence index 0 is `{x: 0, y: 0}` (the
centered target for the first sentence is clamped to the top), but — per the
counterexample — not for every sentence index. -/
theorem centered_scroll_top_for_first_sentence (s : App) (total : Nat)
    (hc : s.config.center_spoken_sentence = true)
    (hv : App.estimated_viewport_fraction s = 9 / 10) (ht : 0 < total) :
    App.scroll_offset_for_sentence s 0 total = some { x := 0, y := 0 } := by
  rw [scroll_offset_eval s 0 total (by omega) (by rw [hv]; norm_num)]
  rw [hc, if_pos rfl, hv]
  have hstart := resolvedProgress_start_zero s total
  have hdesired :
      min ((App.resolvedProgress s 0 total).middle - 1 / 2 * (9 / 10))
          ((App.resolvedProgress s 0 total).start - 8 / 100 * (9 / 10)) ≤ 0 := by
    refine le_trans (min_le_right _ _) ?_
    rw [hstart]
    norm_num
  have hscroll : (0 : ℚ) < max (1 - 9 / 10) (1 / 10000) := by
    refine lt_of_lt_of_le ?_ (le_max_right _ _)
    norm_num
  have hdiv :
      (min ((App.resolvedProgress s 0 total).middle - 1 / 2 * (9 / 10))
          ((App.resolvedProgress s 0 total).start - 8 / 100 * (9 / 10))) /
        max (1 - 9 / 10) (1 / 10000) ≤ 0 :=
    div_nonpos_iff.mpr (Or.inr ⟨hdesired, hscroll.le⟩)
  rw [clampQ_of_nonpos hdiv]

theorem centered_scroll_top_for_first_sentence_witness :
    (scrollSampleApp.config.center_spoken_sentence = true ∧
      App.estimated_viewport_fraction scrollSampleApp = 9 / 10 ∧ (0 : Nat) < 2) ∧
    App.scroll_offset_for_sentence scrollSampleApp 0 2 = some { x := 0, y := 0 } :=
  ⟨⟨rfl, by norm_num [App.estimated_viewport_fraction, scrollSampleApp, clampQ], by decide⟩,
   centered_scroll_top_for_first_sentence scrollSampleApp 2 rfl
     (by norm_num [App.estimated_viewport_fraction, scrollSampleApp, clampQ]) (by decide)⟩

theorem plan_page_mapping_invariant_witness :
    ((TextNormalizer.plan_page defaultNormalizerConfig
        ["See prior work [12, 13].".data, "It matters.".data]).audio_to_display.get? 1 =
      some 1) ∧
    (TextNormalizer.plan_page defaultNormalizerConfig
        ["See prior work [12, 13].".data, "It matters.".data]).display_to_audio.get? 1 =
      some (some 1) :=
  ⟨by decide,
   (plan_page_mapping_invariant defaultNormalizerConfig
      ["See prior work [12, 13].".data, "It matters.".data]).2.2.1 1 1 (by decide)⟩

theorem page_mode_count_preserved_witness :
    ((splitOnSeq SENTENCE_MARKER
        (TextNormalizer.clean_text_core defaultNormalizerConfig
          (List.intercalate SENTENCE_MARKER ["a[".data, "]b".data]))).length
          ≠ (["a[".data, "]b".data] : List Str).length) ∧
    TextNormalizer.normalize_page_mode defaultNormalizerConfig ["a[".data, "]b".data] =
      (["a[".data, "]b".data] : List Str).map
        (TextNormalizer.clean_text_core defaultNormalizerConfig) :=
  ⟨by decide,
   (page_mode_count_preserved defaultNormalizerConfig ["a[".data, "]b".data]).2 (by decide)⟩

/-- A `some` result of the tick walk is at or after the start index. -/
theorem tickTargetAux_ge (pause elapsed : Nat) :
    ∀ (t : List (Str × Nat)) (acc i r : Nat),
      App.tickTargetAux pause elapsed t acc i = some r → i ≤ r := by
  intro t
  induction t with
  | nil => intro acc i r h; simp [App.tickTargetAux] at h
  | cons hd rest ih =>
    obtain ⟨path, dur⟩ := hd
    intro acc i r h
    simp only [App.tickTargetAux] at h
    by_cases hc : elapsed ≤ acc + dur + pause
    · rw [if_pos hc] at h
      have h2 := Option.some.inj h
      omega
    · rw [if_neg hc] at h
      have h2 := ih _ _ _ h
      omega

/-- The tick walk is monotone in the elapsed time. -/
theorem tickTargetAux_mono (pause : Nat) :
    ∀ (t : List (Str × Nat)) (e1 e2 acc i r1 r2 : Nat), e1 ≤ e2 →
      App.tickTargetAux pause e1 t acc i = some r1 →
      App.tickTargetAux pause e2 t acc i = some r2 → r1 ≤ r2 := by
  intro t
  induction t with
  | nil => intro e1 e2 acc i r1 r2 h12 h1 h2; simp [App.tickTargetAux] at h1
  | cons hd rest ih =>
    obtain ⟨path, dur⟩ := hd
    intro e1 e2 acc i r1 r2 h12 h1 h2
    simp only [App.tickTargetAux] at h1 h2
    by_cases hc2 : e2 ≤ acc + dur + pause
    · have hc1 : e1 ≤ acc + dur + pause := le_trans h12 hc2
      rw [if_pos hc1] at h1
      rw [if_pos hc2] at h2
      have e1h := Option.some.inj h1
      have e2h := Option.some.inj h2
      omega
    · rw [if_neg hc2] at h2
      by_cases hc1 : e1 ≤ acc + dur + pause
      · rw [if_pos hc1] at h1
        have hr1 : i = r1 := Option.some.inj h1
        have hr2 := tickTargetAux_ge pause e2 rest _ _ _ h2
        omega
      · rw [if_neg hc1] at h1
        exact ih e1 e2 _ _ _ _ h12 h1 h2

/-- On a nonempty track the tick walk yields `none` exactly when the elapsed
time exceeds the accumulated total duration including pauses. -/
theorem tickTargetAux_none_iff (pause elapsed : Nat) :
    ∀ (t : List (Str × Nat)) (acc i : Nat), t ≠ [] →
      (App.tickTargetAux pause elapsed t acc i = none ↔
        acc + App.totalTrackDuration t pause < elapsed) := by
  intro t
  induction t with
  | nil => intro acc i h; exact absurd rfl h
  | cons hd rest ih =>
    obtain ⟨path, dur⟩ := hd
    intro acc i _
    have htot : App.totalTrackDuration ((path, dur) :: rest) pause =
        dur + pause + App.totalTrackDuration rest pause := by
      simp [App.totalTrackDuration]
    rw [htot]
    simp only [App.tickTargetAux]
    by_cases hc : elapsed ≤ acc + dur + pause
    · rw [if_pos hc]
      constructor
      · intro h; exact absurd h (by simp)
      · intro h
        exfalso
        have hT : 0 ≤ App.totalTrackDuration rest pause := Nat.zero_le _
        omega
    · rw [if_neg hc]
      cases rest with
      | nil =>
        simp only [App.tickTargetAux, App.totalTrackDuration, List.map_nil, List.sum_nil]
        constructor
        · intro _
          omega
        · intro _
          trivial
      | cons hd2 rest2 =>
        rw [ih _ (i + 1) (by simp)]
        constructor
        · intro h; omega
        · intro h; omega

/-- Under a running, unpaused session with a start instant, the `Tick` arm
resolves a `some` target to the clamped index (without the `StopTts` effect)
and a `none` target to the finished-page branch (with the `StopTts`
effect). -/
theorem reduceTick_cases (s : App) (t0 n : Nat)
    (hrun : s.tts.running = true)
    (hpaused : (s.tts.playback.map Playback.paused).getD false = false)
    (hstart : s.tts.started_at = some t0) :
    (∀ i, App.tickTargetIdx s.tts.track
        (durationOfSecs s.config.pause_after_sentence)
        (s.tts.elapsed + (n - t0)) = some i →
      (App.reduceTick s n).1.tts.current_sentence_idx =
        some (min (s.tts.sentence_offset + i) (s.tts.last_sentences.length - 1)) ∧
      Effect.StopTts ∉ (App.reduceTick s n).2) ∧
    (App.tickTargetIdx s.tts.track
        (durationOfSecs s.config.pause_after_sentence)
        (s.tts.elapsed + (n - t0)) = none →
      Effect.StopTts ∈ (App.reduceTick s n).2) := by
  unfold App.reduceTick
  rw [hrun, hpaused, hstart]
  simp only [if_true, Bool.false_eq_true, if_false]
  constructor
  · intro i hi
    rw [hi]
    dsimp only
    by_cases heq : some (min (s.tts.sentence_offset + i)
        (s.tts.last_sentences.length - 1)) ≠ s.tts.current_sentence_idx
    · rw [if_pos heq]
      refine ⟨rfl, ?_⟩
      simp
    · rw [if_neg heq]
      push_neg at heq
      exact ⟨heq.symm, by simp⟩
  · intro hn
    rw [hn]
    dsimp only
    by_cases hpage : s.reader.current_page + 1 < s.reader.pages.length
    · rw [if_pos hpage]
      simp
    · rw [if_neg hpage]
      simp

/-- C6: for a fixed state (fixed track, offset, pause configuration and
sentence list) with a running, unpaused session, the sentence index resolved
by `Tick` is non-decreasing as the tick time, and hence the elapsed time,
increases, and the finished-page transition (the `StopTts` effect, with the
page advance when a next page exists) fires exactly when the accumulated
elapsed time exceeds the track's total duration including the per-sentence
pauses. -/
theorem tick_monotone_and_finishes_once (s : App) (t0 n1 n2 : Nat)
    (hrun : s.tts.running = true)
    (hpaused : (s.tts.playback.map Playback.paused).getD false = false)
    (hstart : s.tts.started_at = some t0)
    (htrack : s.tts.track ≠ [])
    (h12 : n1 ≤ n2) :
    (∀ i1 i2,
      Effect.StopTts ∉ (App.reduceTick s n1).2 →
      Effect.StopTts ∉ (App.reduceTick s n2).2 →
      (App.reduceTick s n1).1.tts.current_sentence_idx = some i1 →
      (App.reduceTick s n2).1.tts.current_sentence_idx = some i2 →
      i1 ≤ i2) ∧
    (Effect.StopTts ∈ (App.reduceTick s n1).2 ↔
      App.totalTrackDuration s.tts.track
          (durationOfSecs s.config.pause_after_sentence) <
        s.tts.elapsed + (n1 - t0)) := by
  have hcases1 := reduceTick_cases s t0 n1 hrun hpaused hstart
  have hcases2 := reduceTick_cases s t0 n2 hrun hpaused hstart
  constructor
  · intro i1 i2 hn1 hn2 hc1 hc2
    cases ht1 : App.tickTargetIdx s.tts.track
        (durationOfSecs s.config.pause_after_sentence)
        (s.tts.elapsed + (n1 - t0)) with
    | none => exact absurd (hcases1.2 ht1) hn1
    | some j1 =>
      cases ht2 : App.tickTargetIdx s.tts.track
          (durationOfSecs s.config.pause_after_sentence)
          (s.tts.elapsed + (n2 - t0)) with
      | none => exact absurd (hcases2.2 ht2) hn2
      | some j2 =>
        have h1 := (hcases1.1 j1 ht1).1
        have h2 := (hcases2.1 j2 ht2).1
        rw [hc1] at h1
        rw [hc2] at h2
        have hi1 := Option.some.inj h1
        have hi2 := Option.some.inj h2
        have he12 : s.tts.elapsed + (n1 - t0) ≤ s.tts.elapsed + (n2 - t0) := by
          have := Nat.sub_le_sub_right h12 t0
          omega
        have hj := tickTargetAux_mono
          (durationOfSecs s.config.pause_after_sentence) s.tts.track
          (s.tts.elapsed + (n1 - t0)) (s.tts.elapsed + (n2 - t0)) 0 0 j1 j2
          he12 ht1 ht2
        have hmin : min (s.tts.sentence_offset + j1) (s.tts.last_sentences.length - 1) ≤
            min (s.tts.sentence_offset + j2) (s.tts.last_sentences.length - 1) :=
          min_le_min (by omega) le_rfl
        omega
  · have hiff := tickTargetAux_none_iff
      (durationOfSecs s.config.pause_after_sentence)
      (s.tts.elapsed + (n1 - t0)) s.tts.track 0 0 htrack
    cases ht1 : App.tickTargetIdx s.tts.track
        (durationOfSecs s.config.pause_after_sentence)
        (s.tts.elapsed + (n1 - t0)) with
    | none =>
      have hmem := hcases1.2 ht1
      have htot : 0 + App.totalTrackDuration s.tts.track
          (durationOfSecs s.config.pause_after_sentence) <
            s.tts.elapsed + (n1 - t0) := hiff.mp ht1
      constructor
      · intro _; omega
      · intro _; exact hmem
    | some j1 =>
      have hnm := (hcases1.1 j1 ht1).2
      constructor
      · intro hmem; exact absurd hmem hnm
      · intro hlt
        exfalso
        have hnone : App.tickTargetIdx s.tts.track
            (durationOfSecs s.config.pause_after_sentence)
            (s.tts.elapsed + (n1 - t0)) = none := hiff.mpr (by omega)
        rw [ht1] at hnone
        exact absurd hnone (by simp)

theorem tick_monotone_and_finishes_once_witness :
    (tickSampleApp.tts.running = true ∧
      (tickSampleApp.tts.playback.map Playback.paused).getD false = false ∧
      tickSampleApp.tts.started_at = some 0 ∧
      tickSampleApp.tts.track ≠ [] ∧ (2200000000 : Nat) ≤ 2600000000) ∧
    (Effect.StopTts ∈ (App.reduceTick tickSampleApp 2200000000).2 ↔
      App.totalTrackDuration tickSampleApp.tts.track
          (durationOfSecs tickSampleApp.config.pause_after_sentence) <
        tickSampleApp.tts.elapsed + (2200000000 - 0)) :=
  ⟨⟨rfl, rfl, rfl, by decide, by decide⟩,
   (tick_monotone_and_finishes_once tickSampleApp 0 2200000000 2600000000
      rfl rfl rfl (by decide) (by decide)).2⟩

/-- One wrap step never decreases the line count. -/
theorem wrapStep_fst_le (mu : ℚ) (ls ws : Nat) (st : ℚ × ℚ) (c : Char) :
    st.1 ≤ (App.wrapStep mu ls ws st c).1 := by
  unfold App.wrapStep
  by_cases h1 : c = '\n'
  · rw [if_pos h1]
    simp
  · rw [if_neg h1]
    dsimp only
    split_ifs <;> simp

/-- The wrap fold never decreases the line count. -/
theorem wrapFold_fst_le (mu : ℚ) (ls ws : Nat) :
    ∀ (l : List Char) (st : ℚ × ℚ),
      st.1 ≤ (l.foldl (App.wrapStep mu ls ws) st).1 := by
  intro l
  induction l with
  | nil => intro st; exact le_refl _
  | cons c cs ih =>
    intro st
    rw [List.foldl_cons]
    exact le_trans (wrapStep_fst_le mu ls ws st c) (ih _)

/-- Every estimated sentence weight is at least `0.8`. -/
theorem weights_ge (s : App) (sentences : List Str) :
    ∀ w ∈ App.estimate_sentence_line_weights s sentences, 4 / 5 ≤ w := by
  intro w hw
  unfold App.estimate_sentence_line_weights at hw
  dsimp only at hw
  split at hw
  · obtain ⟨sen, _, hsen⟩ := List.mem_map.mp hw
    rw [← hsen]
    norm_num
  · obtain ⟨sen, _, hsen⟩ := List.mem_map.mp hw
    have h1 : (1 : ℚ) ≤ (sen.foldl
        (App.wrapStep (max (App.estimated_text_width s / max (App.estimated_glyph_width_px s) 1) 8)
          s.config.letter_spacing s.config.word_spacing) (1, 0)).1 :=
      wrapFold_fst_le _ _ _ sen (1, 0)
    have h2 : (8 : ℚ) / 10 ≤ max s.config.line_spacing (8 / 10) := le_max_right _ _
    have h3 : (0 : ℚ) ≤ max s.config.line_spacing (8 / 10) := le_trans (by norm_num) h2
    rw [← hsen]
    calc (4 : ℚ) / 5 = 1 * (8 / 10) := by norm_num
    _ ≤ 1 * max s.config.line_spacing (8 / 10) := by
        exact mul_le_mul_of_nonneg_left h2 (by norm_num)
    _ ≤ (sen.foldl
          (App.wrapStep (max (App.estimated_text_width s / max (App.estimated_glyph_width_px s) 1) 8)
            s.config.letter_spacing s.config.word_spacing) (1, 0)).1 *
          max s.config.line_spacing (8 / 10) :=
        mul_le_mul_of_nonneg_right h1 h3

/-- Every estimated sentence weight is nonnegative. -/
theorem weights_nonneg (s : App) (sentences : List Str) :
    ∀ w ∈ App.estimate_sentence_line_weights s sentences, 0 ≤ w :=
  fun w hw => le_trans (by norm_num) (weights_ge s sentences w hw)

/-- The weight list has one entry per sentence. -/
theorem weights_length (s : App) (sentences : List Str) :
    (App.estimate_sentence_line_weights s sentences).length = sentences.length := by
  unfold App.estimate_sentence_line_weights
  dsimp only
  split <;> simp

/-- Prefix sums of a nonnegative list are monotone in the prefix length. -/
theorem take_sum_mono {w : List ℚ} (hw : ∀ x ∈ w, 0 ≤ x) {k k2 : Nat}
    (h : k ≤ k2) : (w.take k).sum ≤ (w.take k2).sum := by
  have hsplit : w.take k2 = w.take k ++ (w.drop k).take (k2 - k) := by
    have h2 : k + (k2 - k) = k2 := by omega
    nth_rewrite 1 [← h2]
    rw [List.take_add]
  rw [hsplit, List.sum_append]
  have hnn : 0 ≤ ((w.drop k).take (k2 - k)).sum := by
    refine List.sum_nonneg ?_
    intro x hx
    exact hw x (List.drop_subset k w (List.take_subset _ _ hx))
  linarith

/-- A prefix sum extended by one step adds exactly the next weight. -/
theorem take_succ_sum (w : List ℚ) (k : Nat) (hk : k < w.length) :
    (w.take (k + 1)).sum = (w.take k).sum + w.getD k 0 := by
  rw [List.take_succ, List.sum_append]
  congr 1
  cases hg : w[k]? with
  | none =>
    rw [List.getElem?_eq_none_iff] at hg
    omega
  | some v =>
    have hd : w.getD k 0 = v := by
      rw [List.getD_eq_getElem?_getD, hg]
      rfl
    rw [hd]
    simp

/-- An in-range `getD` reads an element of the list. -/
theorem getD_mem (w : List ℚ) (k : Nat) (hk : k < w.length) :
    w.getD k 0 ∈ w := by
  cases hg : w.get? k with
  | none =>
    rw [List.get?_eq_none] at hg
    omega
  | some v =>
    have hd : w.getD k 0 = v := by
      rw [List.getD_eq_get?, hg]
      rfl
    rw [hd]
    exact List.get?_mem hg

/-- Characterization of `sentence_progress_for_page` when every guard
passes. -/
theorem sentence_progress_eq_some (s : App) (i t : Nat) (page : Str)
    (sentences : List Str)
    (hpg : s.reader.pages.get? s.reader.current_page = some page)
    (hps : s.reader.page_sentences.get? s.reader.current_page = some sentences)
    (hemp : sentences.isEmpty = false)
    (htw : ¬ (App.estimate_sentence_line_weights s sentences).sum ≤ f32Epsilon) :
    App.sentence_progress_for_page s i t = some
      { start := clampQ
          (((App.estimate_sentence_line_weights s sentences).take
              (min i ((App.estimate_sentence_line_weights s sentences).length - 1))).sum /
            (App.estimate_sentence_line_weights s sentences).sum) 0 1,
        middle := clampQ
          ((((App.estimate_sentence_line_weights s sentences).take
              (min i ((App.estimate_sentence_line_weights s sentences).length - 1))).sum +
            max ((App.estimate_sentence_line_weights s sentences).getD
                (min i ((App.estimate_sentence_line_weights s sentences).length - 1)) 0)
              f32Epsilon * (1 / 2)) /
            (App.estimate_sentence_line_weights s sentences).sum) 0 1 } := by
  unfold App.sentence_progress_for_page
  rw [hpg]
  dsimp only
  rw [hps]
  dsimp only
  rw [hemp]
  rw [if_neg (by simp)]
  rw [if_neg htw]

/-- Whether `sentence_progress_for_page` succeeds does not depend on the
sentence index or the total count. -/
theorem sentence_progress_isSome_indep (s : App) (i ti j tj : Nat) :
    (App.sentence_progress_for_page s i ti).isSome =
      (App.sentence_progress_for_page s j tj).isSome := by
  unfold App.sentence_progress_for_page
  split
  · rfl
  · split
    · rfl
    · split
      · rfl
      · dsimp only
        split
        · rfl
        · rfl

/-- The weight-based progress is componentwise monotone in the sentence
index. -/
theorem sentence_progress_mono (s : App) (i j ti tj : Nat) (hij : i ≤ j) :
    ∀ p q, App.sentence_progress_for_page s i ti = some p →
      App.sentence_progress_for_page s j tj = some q →
      p.start ≤ q.start ∧ p.middle ≤ q.middle := by
  intro p q hp hq
  unfold App.sentence_progress_for_page at hp
  split at hp
  · exact absurd hp (by simp)
  next page hpg =>
    split at hp
    · exact absurd hp (by simp)
    next sentences hps =>
      by_cases hempty : sentences.isEmpty
      · rw [if_pos hempty] at hp
        exact absurd hp (by simp)
      · have hempf : sentences.isEmpty = false := by
          revert hempty
          cases sentences.isEmpty <;> simp
        rw [if_neg hempty] at hp
        dsimp only at hp
        by_cases htw : (App.estimate_sentence_line_weights s sentences).sum ≤ f32Epsilon
        · rw [if_pos htw] at hp
          exact absurd hp (by simp)
        · rw [if_neg htw] at hp
          have hpv := Option.some.inj hp
          have hqeq := sentence_progress_eq_some s j tj page sentences hpg hps hempf htw
          rw [hqeq] at hq
          have hqv := Option.some.inj hq
          rw [← hpv, ← hqv]
          set w := App.estimate_sentence_line_weights s sentences with hwdef
          have hLpos : 0 < w.length := by
            rw [hwdef, weights_length]
            cases sentences with
            | nil => simp at hempf
            | cons a l => exact Nat.succ_pos _
          have hii : min i (w.length - 1) < w.length := by omega
          have hjj : min j (w.length - 1) < w.length := by omega
          have hij2 : min i (w.length - 1) ≤ min j (w.length - 1) :=
            min_le_min hij le_rfl
          have hnn : ∀ x ∈ w, 0 ≤ x := weights_nonneg s sentences
          have htwpos : 0 < w.sum :=
            lt_of_le_of_lt (by norm_num [f32Epsilon]) (not_le.mp htw)
          constructor
          · refine clampQ_mono ?_
            exact (div_le_div_right htwpos).mpr (take_sum_mono hnn hij2)
          · refine clampQ_mono ?_
            refine (div_le_div_right htwpos).mpr ?_
            rcases Nat.eq_or_lt_of_le hij2 with heq | hlt
            · rw [heq]
            · have hstep : min i (w.length - 1) + 1 ≤ min j (w.length - 1) := hlt
              have htake := take_succ_sum w (min i (w.length - 1)) hii
              have hb := take_sum_mono hnn hstep
              have hwii : 4 / 5 ≤ w.getD (min i (w.length - 1)) 0 :=
                weights_ge s sentences _ (getD_mem w _ hii)
              have hmax_i : max (w.getD (min i (w.length - 1)) 0) f32Epsilon =
                  w.getD (min i (w.length - 1)) 0 :=
                max_eq_left (le_trans (by norm_num [f32Epsilon]) hwii)
              have hmax_j : (0 : ℚ) ≤ max (w.getD (min j (w.length - 1)) 0) f32Epsilon :=
                le_trans (by norm_num [f32Epsilon]) (le_max_right _ _)
              rw [hmax_i]
              nlinarith [htake, hb, hwii, hmax_j]

/-- The linear fallback progress is componentwise monotone in the sentence
index. -/
theorem fallbackProgress_mono (i j total : Nat) (hij : i ≤ j) :
    (App.fallbackProgress i total).start ≤ (App.fallbackProgress j total).start ∧
    (App.fallbackProgress i total).middle ≤ (App.fallbackProgress j total).middle := by
  unfold App.fallbackProgress
  dsimp only
  have hmin : ((min i (total - 1) : Nat) : ℚ) ≤ ((min j (total - 1) : Nat) : ℚ) :=
    Nat.cast_le.mpr (min_le_min hij le_rfl)
  have hden : (0 : ℚ) < ((max (total - 1) 1 : Nat) : ℚ) := by
    refine Nat.cast_pos.mpr ?_
    exact Nat.lt_of_lt_of_le Nat.one_pos (le_max_right _ _)
  constructor <;> exact clampQ_mono ((div_le_div_right hden).mpr hmin)

/-- The resolved progress is componentwise monotone in the sentence index. -/
theorem resolvedProgress_mono (s : App) (i j total : Nat) (hij : i ≤ j) :
    (App.resolvedProgress s i total).start ≤ (App.resolvedProgress s j total).start ∧
    (App.resolvedProgress s i total).middle ≤ (App.resolvedProgress s j total).middle := by
  unfold App.resolvedProgress
  cases hsp : App.sentence_progress_for_page s i total with
  | none =>
    have hind := sentence_progress_isSome_indep s i total j total
    rw [hsp] at hind
    have hq : App.sentence_progress_for_page s j total = none :=
      Option.not_isSome_iff_eq_none.mp (by rw [← hind]; simp)
    rw [hq]
    simp only [Option.getD]
    exact fallbackProgress_mono i j total hij
  | some p =>
    have hind := sentence_progress_isSome_indep s i total j total
    rw [hsp] at hind
    cases hq : App.sentence_progress_for_page s j total with
    | none => rw [hq] at hind; simp at hind
    | some q =>
      simp only [Option.getD]
      exact sentence_progress_mono s i j total total hij p q hsp hq

/-- Above the early-return threshold the offset is the top for every
index. -/
theorem scroll_offset_eval_top (s : App) (i total : Nat) (h0 : ¬ total = 0)
    (hvf : 999 / 1000 ≤ App.estimated_viewport_fraction s) :
    App.scroll_offset_for_sentence s i total = some { x := 0, y := 0 } := by
  simp only [App.scroll_offset_for_sentence, h0, hvf, if_false, if_true, ite_true]

/-- C7: for a fixed application state, `scroll_offset_for_sentence` is
monotone in the sentence index: with the same `total_sentences`, a later
sentence never gets a smaller `y` fraction. -/
theorem scroll_offset_monotone (s : App) (i j total : Nat) (hij : i ≤ j)
    (o1 o2 : RelativeOffset)
    (h1 : App.scroll_offset_for_sentence s i total = some o1)
    (h2 : App.scroll_offset_for_sentence s j total = some o2) :
    o1.y ≤ o2.y := by
  by_cases h0 : total = 0
  · rw [App.scroll_offset_for_sentence, if_pos h0] at h1
    exact absurd h1 (by simp)
  · by_cases hvf : 999 / 1000 ≤ App.estimated_viewport_fraction s
    · rw [scroll_offset_eval_top s i total h0 hvf] at h1
      rw [scroll_offset_eval_top s j total h0 hvf] at h2
      rw [← Option.some.inj h1, ← Option.some.inj h2]
    · rw [scroll_offset_eval s i total h0 hvf] at h1
      rw [scroll_offset_eval s j total h0 hvf] at h2
      rw [← Option.some.inj h1, ← Option.some.inj h2]
      obtain ⟨hstart, hmiddle⟩ := resolvedProgress_mono s i j total hij
      have hS : (0 : ℚ) < max (1 - App.estimated_viewport_fraction s) (1 / 10000) :=
        lt_of_lt_of_le (by norm_num) (le_max_right _ _)
      refine clampQ_mono ?_
      refine (div_le_div_right hS).mpr ?_
      split
      · exact min_le_min (by linarith) (by linarith)
      · linarith

theorem scroll_offset_monotone_witness :
    ((0 : Nat) ≤ 1 ∧
      App.scroll_offset_for_sentence tickSampleApp 0 2 = some { x := 0, y := 0 } ∧
      App.scroll_offset_for_sentence tickSampleApp 1 2 = some { x := 0, y := 1 }) ∧
    (RelativeOffset.mk 0 0).y ≤ (RelativeOffset.mk 0 1).y :=
  ⟨⟨by decide,
    by
      norm_num +decide [App.scroll_offset_for_sentence, App.resolvedProgress,
        App.fallbackProgress, App.sentence_progress_for_page,
        App.estimated_viewport_fraction, tickSampleApp, sampleConfig, sampleTts,
        clampQ],
    by
      norm_num +decide [App.scroll_offset_for_sentence, App.resolvedProgress,
        App.fallbackProgress, App.sentence_progress_for_page,
        App.estimated_viewport_fraction, tickSampleApp, sampleConfig, sampleTts,
        clampQ]⟩,
   scroll_offset_monotone tickSampleApp 0 1 2 (by decide)
     (RelativeOffset.mk 0 0) (RelativeOffset.mk 0 1)
     (by
      norm_num +decide [App.scroll_offset_for_sentence, App.resolvedProgress,
        App.fallbackProgress, App.sentence_progress_for_page,
        App.estimated_viewport_fraction, tickSampleApp, sampleConfig, sampleTts,
        clampQ])
     (by
      norm_num +decide [App.scroll_offset_for_sentence, App.resolvedProgress,
        App.fallbackProgress, App.sentence_progress_for_page,
        App.estimated_viewport_fraction, tickSampleApp, sampleConfig, sampleTts,
        clampQ])⟩

end EbupViewer
